import Mathlib

/-!
Verification of the dso-date-shifter core (src/main.py).

Shallow embedding of the date-detection-and-shift pipeline:

* `shift_date`  embeds `shift_date` (src/main.py lines 58-77), built on a model
  of CPython's `datetime.datetime.strptime`, `+ timedelta(days=k)` and
  `strftime` for format strings made of the year/month/day directives
  `%Y`, `%m`, `%d`, `%y` and literal characters (formats are embedded
  pre-tokenized as `List FmtTok`).
* `findAll`     embeds `re.findall` of the scanner pattern
  (three alternatives: four digits, hyphen, two digits, hyphen, two digits;
  two digits, slash-or-hyphen, two digits, slash-or-hyphen, four digits;
  two digits, slash-or-hyphen, two digits, slash-or-hyphen, two digits)
  (src/main.py line 103-104): left-to-right, non-overlapping, first
  alternative wins at each position.
* `transformContent` embeds the replacement loop of `process_file`
  (src/main.py lines 107-111): for each scanned candidate in order,
  `str.replace` of all occurrences of the candidate by its shifted form.

Machine integers do not occur (Python ints are unbounded); dates are triples
of `Nat`.  Failure paths are explicit: `strptime` failure is `Option.none`
(Python `ValueError`, caught by `shift_date`), day-addition overflow is
`Except.error ShiftErr.overflow` (Python `OverflowError`, *not* caught by
`shift_date`, caught only by the per-file `except Exception` handler).
-/

/-- ASCII decimal digit test (the scanner's `\d` on the ASCII inputs the
claims range over). -/
def isDigitC (c : Char) : Bool := 48 ≤ c.toNat && c.toNat ≤ 57

/-- Numeric value of an ASCII digit character. -/
def digitVal (c : Char) : Nat := c.toNat - 48

/-- ASCII digit character for a value `0..9`. -/
def digitChar (n : Nat) : Char := Char.ofNat (48 + n)

/-- Proleptic-Gregorian leap-year rule, as in CPython `datetime._is_leap`. -/
def isLeap (y : Nat) : Bool := y % 4 == 0 && (y % 100 != 0 || y % 400 == 0)

/-- Days in a month, as in CPython `datetime._days_in_month`. -/
def daysInMonth (y m : Nat) : Nat :=
  if m = 2 then (if isLeap y then 29 else 28)
  else if m = 4 ∨ m = 6 ∨ m = 9 ∨ m = 11 then 30
  else 31

/-- A calendar date as CPython's `datetime.date` holds it (year, month, day);
valid dates have `1 ≤ year ≤ 9999` (`datetime.MINYEAR`/`MAXYEAR`). -/
structure Date where
  year : Nat
  month : Nat
  day : Nat
deriving DecidableEq, Repr

/-- Validity exactly as enforced by the `datetime.date` constructor. -/
def isValidDate (d : Date) : Bool :=
  1 ≤ d.year && d.year ≤ 9999 && 1 ≤ d.month && d.month ≤ 12 &&
  1 ≤ d.day && d.day ≤ daysInMonth d.year d.month

/-- Successor day in the proleptic Gregorian calendar; `none` past
9999-12-31 (where CPython raises `OverflowError`). -/
def nextDay (dt : Date) : Option Date :=
  if dt.day < daysInMonth dt.year dt.month then some ⟨dt.year, dt.month, dt.day + 1⟩
  else if dt.month < 12 then some ⟨dt.year, dt.month + 1, 1⟩
  else if dt.year < 9999 then some ⟨dt.year + 1, 1, 1⟩
  else none

/-- Predecessor day; `none` before 0001-01-01. -/
def prevDay (dt : Date) : Option Date :=
  if 1 < dt.day then some ⟨dt.year, dt.month, dt.day - 1⟩
  else if 1 < dt.month then some ⟨dt.year, dt.month - 1, daysInMonth dt.year (dt.month - 1)⟩
  else if 1 < dt.year then some ⟨dt.year - 1, 12, 31⟩
  else none

/-- Iterate a partial step function `n` times. -/
def iterateO (f : Date → Option Date) : Nat → Date → Option Date
  | 0, d => some d
  | n + 1, d => (f d).bind (iterateO f n)

/-- Model of `datetime + timedelta(days=k)`: move `k` calendar days (proleptic
Gregorian, month/year rollover and leap years handled by
`nextDay`/`prevDay`); `none` models the `OverflowError` CPython raises when
the result falls outside 0001-01-01 .. 9999-12-31. -/
def addDaysChecked (d : Date) (k : Int) : Option Date :=
  if k < 0 then iterateO prevDay (-k).toNat d else iterateO nextDay k.toNat d

/-- A tokenized date-format directive: the subset of `strptime`/`strftime`
directives the tool's formats use (year `%Y`, month `%m`, day `%d`,
two-digit year `%y`) plus literal characters (`%%` tokenizes to
`lit '%'`). -/
inductive FmtTok where
  | lit (c : Char)
  | tY
  | tm
  | td
  | ty
deriving DecidableEq, Repr

/-- The tool's default format `%Y-%m-%d` (src/main.py line 51), tokenized. -/
def defaultFmt : List FmtTok := [.tY, .lit '-', .tm, .lit '-', .td]

/-- Partially collected `strptime` components (CPython `found_dict`). -/
structure Parts where
  py : Option Nat
  pm : Option Nat
  pd : Option Nat
deriving DecidableEq, Repr

/-- CPython `_strptime` regex for `%Y`: exactly four digits. -/
def matchY : List Char → Option (Nat × List Char)
  | a :: b :: c :: d :: rest =>
    if isDigitC a ∧ isDigitC b ∧ isDigitC c ∧ isDigitC d then
      some (1000 * digitVal a + 100 * digitVal b + 10 * digitVal c + digitVal d, rest)
    else none
  | _ => none

/-- CPython `_strptime` regex for `%y`: two digits, then the century rule
`00..68 ↦ 2000..2068`, `69..99 ↦ 1969..1999`. -/
def matchy2 : List Char → Option (Nat × List Char)
  | a :: b :: rest =>
    if isDigitC a ∧ isDigitC b then
      let v := 10 * digitVal a + digitVal b
      some ((if v ≤ 68 then 2000 + v else 1900 + v), rest)
    else none
  | _ => none

/-- CPython `_strptime` regex for `%m`: ordered alternation
`1[0-2]|0[1-9]|[1-9]`. -/
def matchm : List Char → Option (Nat × List Char)
  | c1 :: c2 :: rest =>
    if c1 = '1' ∧ '0' ≤ c2 ∧ c2 ≤ '2' then some (10 + digitVal c2, rest)
    else if c1 = '0' ∧ '1' ≤ c2 ∧ c2 ≤ '9' then some (digitVal c2, rest)
    else if '1' ≤ c1 ∧ c1 ≤ '9' then some (digitVal c1, c2 :: rest)
    else none
  | [c1] => if '1' ≤ c1 ∧ c1 ≤ '9' then some (digitVal c1, []) else none
  | [] => none

/-- CPython `_strptime` regex for `%d`: ordered alternation
`3[01]|[12]\d|0[1-9]|[1-9]| [1-9]`. -/
def matchd : List Char → Option (Nat × List Char)
  | c1 :: c2 :: rest =>
    if c1 = '3' ∧ (c2 = '0' ∨ c2 = '1') then some (30 + digitVal c2, rest)
    else if (c1 = '1' ∨ c1 = '2') ∧ isDigitC c2 then some (10 * digitVal c1 + digitVal c2, rest)
    else if c1 = '0' ∧ '1' ≤ c2 ∧ c2 ≤ '9' then some (digitVal c2, rest)
    else if '1' ≤ c1 ∧ c1 ≤ '9' then some (digitVal c1, c2 :: rest)
    else if c1 = ' ' ∧ '1' ≤ c2 ∧ c2 ≤ '9' then some (digitVal c2, rest)
    else none
  | [c1] => if '1' ≤ c1 ∧ c1 ≤ '9' then some (digitVal c1, []) else none
  | [] => none

/-- Match one format token against the input, updating the collected
components (a later directive overwrites an earlier one, as iteration over
CPython's `found_dict` does). -/
def matchTok : FmtTok → Parts → List Char → Option (Parts × List Char)
  | .lit c, p, x :: rest => if x = c then some (p, rest) else none
  | .lit _, _, [] => none
  | .tY, p, s => (matchY s).map fun vr => ({ p with py := some vr.1 }, vr.2)
  | .ty, p, s => (matchy2 s).map fun vr => ({ p with py := some vr.1 }, vr.2)
  | .tm, p, s => (matchm s).map fun vr => ({ p with pm := some vr.1 }, vr.2)
  | .td, p, s => (matchd s).map fun vr => ({ p with pd := some vr.1 }, vr.2)

/-- Run all format tokens; the whole input must be consumed (CPython raises
`ValueError` when `found.end()` is short of the string's length). -/
def runToks : List FmtTok → Parts → List Char → Option Parts
  | [], p, [] => some p
  | [], _, _ :: _ => none
  | t :: ts, p, s =>
    match matchTok t p s with
    | none => none
    | some pr => runToks ts pr.1 pr.2

/-- Model of `datetime.strptime` on the modeled directive subset: strict whole-string
match, defaults year 1900 / month 1 / day 1, then the `datetime` constructor
check (year ≥ 1; day within the month's length — months from `%m` are
already 1..12, days from `%d` already 1..31). `none` models `ValueError`. -/
def strptime (s : List Char) (fmt : List FmtTok) : Option Date :=
  match runToks fmt ⟨none, none, none⟩ s with
  | none => none
  | some p =>
    let y := p.py.getD 1900
    let m := p.pm.getD 1
    let d := p.pd.getD 1
    if 1 ≤ y ∧ d ≤ daysInMonth y m then some ⟨y, m, d⟩ else none

/-- Decimal rendering of a year `1..9999` as glibc `strftime %Y` prints it
on the tool's host platform: unpadded. -/
def yearStr (y : Nat) : List Char :=
  if 1000 ≤ y then
    [digitChar (y / 1000 % 10), digitChar (y / 100 % 10), digitChar (y / 10 % 10),
      digitChar (y % 10)]
  else if 100 ≤ y then [digitChar (y / 100), digitChar (y / 10 % 10), digitChar (y % 10)]
  else if 10 ≤ y then [digitChar (y / 10), digitChar (y % 10)]
  else [digitChar y]

/-- Two-digit zero-padded rendering (`%m`, `%d`, `%y`). -/
def pad2 (n : Nat) : List Char := [digitChar (n / 10 % 10), digitChar (n % 10)]

/-- Render one format token, as `strftime` does. -/
def renderTok (d : Date) : FmtTok → List Char
  | .lit c => [c]
  | .tY => yearStr d.year
  | .tm => pad2 d.month
  | .td => pad2 d.day
  | .ty => pad2 (d.year % 100)

/-- Model of `datetime.strftime` on the modeled directive subset. -/
def strftime (d : Date) (fmt : List FmtTok) : List Char :=
  fmt.foldr (fun t acc => renderTok d t ++ acc) []

/-- The only exception `shift_date` can let escape: `OverflowError` from
`+ timedelta` (it catches `ValueError` alone). -/
inductive ShiftErr where
  | overflow
deriving DecidableEq, Repr

/-- The function `shift_date` (src/main.py lines 58-77): `strptime`, add the day offset,
re-render with the same format; on `ValueError` (parse failure) log a
warning and return the input unchanged.  `OverflowError` from the addition
is not caught and propagates as `.error .overflow`. -/
def shift_date (dateStr : String) (shiftDays : Int) (fmt : List FmtTok) :
    Except ShiftErr String :=
  match strptime dateStr.toList fmt with
  | none => .ok dateStr
  | some d =>
    match addDaysChecked d shiftDays with
    | none => .error .overflow
    | some d2 => .ok (String.mk (strftime d2 fmt))

/-- Character classes of the scanner's regex: digit, literal hyphen, or
either separator (slash or hyphen). -/
inductive CClass where
  | dig
  | hyph
  | sep
deriving DecidableEq, Repr

/-- Does a character belong to a class? -/
def classMatch : CClass → Char → Bool
  | .dig, c => isDigitC c
  | .hyph, c => c = '-'
  | .sep, c => c = '/' || c = '-'

/-- Match a fixed shape (list of character classes) at the head of the
input, returning the matched characters and the remainder. -/
def matchShape : List CClass → List Char → Option (List Char × List Char)
  | [], s => some ([], s)
  | cl :: cls, c :: s =>
    if classMatch cl c then (matchShape cls s).map fun pr => (c :: pr.1, pr.2)
    else none
  | _ :: _, [] => none

/-- Shape `\d{4}-\d{2}-\d{2}`. -/
def shape1 : List CClass :=
  [.dig, .dig, .dig, .dig, .hyph, .dig, .dig, .hyph, .dig, .dig]

/-- Shape two digits, separator, two digits, separator, four digits. -/
def shape2 : List CClass :=
  [.dig, .dig, .sep, .dig, .dig, .sep, .dig, .dig, .dig, .dig]

/-- Shape two digits, separator, two digits, separator, two digits. -/
def shape3 : List CClass := [.dig, .dig, .sep, .dig, .dig, .sep, .dig, .dig]

/-- Ordered alternation of the three shapes: the first shape that matches at
the current position wins (regex alternation semantics). -/
def tryShapes (s : List Char) : Option (List Char × List Char) :=
  (matchShape shape1 s).orElse fun _ =>
    (matchShape shape2 s).orElse fun _ => matchShape shape3 s

/-- Fuel-driven scan loop of `re.findall`: at each position try the
alternation; on a match emit it and continue after it (non-overlapping),
otherwise advance one character. -/
def findAllGo : Nat → List Char → List String
  | 0, _ => []
  | _, [] => []
  | fuel + 1, c :: rest =>
    match tryShapes (c :: rest) with
    | some pr => String.mk pr.1 :: findAllGo fuel pr.2
    | none => findAllGo fuel rest

/-- Model of `re.findall(date_pattern, content)` (src/main.py lines 103-104). -/
def findAll (s : List Char) : List String := findAllGo s.length s

/-- Fuel-driven loop of CPython `str.replace` (non-empty pattern): scan left
to right, replace each leftmost occurrence and continue after the inserted
replacement.  (The scanner's candidates are never empty, so the empty
pattern never occurs; the guard keeps the function total.) -/
def replGo (old new : List Char) : Nat → List Char → List Char
  | 0, s => s
  | fuel + 1, s =>
    if old ≠ [] ∧ old.isPrefixOf s then new ++ replGo old new fuel (s.drop old.length)
    else
      match s with
      | [] => []
      | c :: rest => c :: replGo old new fuel rest

/-- Model of `content.replace(old, new)` — global substring replacement. -/
def pyReplace (s old new : List Char) : List Char := replGo old new s.length s

/-- One step of the replacement loop body (src/main.py lines 109-111):
shift the candidate, then globally replace its text in the current content;
an uncaught exception from `shift_date` aborts the loop. -/
def shiftStep (shiftDays : Int) (fmt : List FmtTok) (acc : String) (cand : String) :
    Except ShiftErr String :=
  (shift_date cand shiftDays fmt).map fun s =>
    String.mk (pyReplace acc.toList cand.toList s.toList)

/-- The content transformation of `process_file` (src/main.py lines
103-111): scan once, then fold the replacement step over the candidates in
scan order. -/
def transformContent (content : String) (shiftDays : Int) (fmt : List FmtTok) :
    Except ShiftErr String :=
  (findAll content.toList).foldlM (shiftStep shiftDays fmt) content

/-- Result of `process_file` at content level: `except Exception` (src/main.py
lines 124-125) turns an escaped exception into "file skipped, no output
written", modeled as `none`. -/
def processFileResult (content : String) (shiftDays : Int) (fmt : List FmtTok) :
    Option String :=
  (transformContent content shiftDays fmt).toOption

/-- Content transformer as §4.3 of the specification words it: run the
scanner once for the ordered candidate sequence, then for each candidate in
scan order (duplicates included) compute its shifted form and apply a global
substring replacement of the candidate text across the entire current state
of the content. -/
def transformSpecGo (shiftDays : Int) (fmt : List FmtTok) :
    String → List String → Except ShiftErr String
  | acc, [] => .ok acc
  | acc, cand :: cands =>
    match shift_date cand shiftDays fmt with
    | .error e => .error e
    | .ok s =>
      transformSpecGo shiftDays fmt
        (String.mk (pyReplace acc.toList cand.toList s.toList)) cands

/-- Specification-worded transformer (scan, then sequential global
replacements). -/
def transformSpec (content : String) (shiftDays : Int) (fmt : List FmtTok) :
    Except ShiftErr String :=
  transformSpecGo shiftDays fmt content (findAll content.toList)

/-- Well-formedness of a tokenized format, delimiting the formats on which
the sequential matcher agrees with CPython's regex-based `strptime`:
* no directive appears twice (CPython's duplicate named groups raise),
* literals are ASCII, neither alphanumeric nor whitespace (no case folding,
  no `\s+` collapsing, no digit absorbed by a variable-width directive),
* the variable-width directives `%m`/`%d` are never directly followed by
  another directive (which regex backtracking could feed differently). -/
def isDir : FmtTok → Bool
  | .lit _ => false
  | _ => true

/-- Variable-width directives. -/
def isVarDir : FmtTok → Bool
  | .tm => true
  | .td => true
  | _ => false

/-- Literal-character restriction (see `fmtOk`). -/
def litOk : FmtTok → Bool
  | .lit c => c.toNat < 128 && !c.isAlphanum && !c.isWhitespace
  | _ => true

/-- No variable-width directive directly followed by a directive. -/
def pairsOk : List FmtTok → Bool
  | a :: b :: rest => !(isVarDir a && isDir b) && pairsOk (b :: rest)
  | _ => true

/-- Directive tags for the duplicate check. -/
def dirTag : FmtTok → Option Nat
  | .lit _ => none
  | .tY => some 0
  | .tm => some 1
  | .td => some 2
  | .ty => some 3

/-- See the module docstring of `isDir`. -/
def fmtOk (fmt : List FmtTok) : Bool :=
  (fmt.filterMap dirTag).Nodup && fmt.all litOk && pairsOk fmt

/-- Strict parse of a candidate under a format, as the claims use it. -/
def strictParse (s : String) (fmt : List FmtTok) : Option Date := strptime s.toList fmt

deriving instance DecidableEq for Except

example : strictParse "2023-01-15" defaultFmt = some ⟨2023, 1, 15⟩ := by decide
example : strictParse "2023-13-40" defaultFmt = none := by decide
example : strictParse "2023-1-5" defaultFmt = some ⟨2023, 1, 5⟩ := by decide
example : shift_date "2023-01-15" 10 defaultFmt = .ok "2023-01-25" := by decide
example : shift_date "31/12/99" 3 defaultFmt = .ok "31/12/99" := by decide
example : shift_date "9999-12-31" 1 defaultFmt = .error .overflow := by decide
example : shift_date "2023-03-01" (-1) defaultFmt = .ok "2023-02-28" := by decide
example : shift_date "2024-03-01" (-1) defaultFmt = .ok "2024-02-29" := by decide

/-! ## Claim theorems -/

/-- C1: for every calendar date `d` expressible in format `f` (its rendering
re-parses strictly to `d`) and every integer offset `k` such that the date
`d2` exactly `k` proleptic-Gregorian calendar days away from `d` is
representable (`addDaysChecked` moves day by day with correct month/year
rollover and leap years), `shift(render(d,f), k, f)` equals
`render(d2, f)`. -/
theorem shift_of_rendered_date (d d2 : Date) (k : Int) (fmt : List FmtTok)
    (hok : fmtOk fmt = true)
    (hexp : strptime (strftime d fmt) fmt = some d)
    (hadd : addDaysChecked d k = some d2) :
    shift_date (String.mk (strftime d fmt)) k fmt =
      .ok (String.mk (strftime d2 fmt)) := by
  have hto : (String.mk (strftime d fmt)).toList = strftime d fmt := rfl
  simp only [shift_date, hto, hexp, hadd]

/-- Witness for C1 at 2023-01-15, offset 10, the default format. -/
theorem shift_of_rendered_date_witness :
    fmtOk defaultFmt = true ∧
    strptime (strftime ⟨2023, 1, 15⟩ defaultFmt) defaultFmt = some ⟨2023, 1, 15⟩ ∧
    addDaysChecked ⟨2023, 1, 15⟩ 10 = some ⟨2023, 1, 25⟩ ∧
    shift_date (String.mk (strftime ⟨2023, 1, 15⟩ defaultFmt)) 10 defaultFmt =
      .ok (String.mk (strftime ⟨2023, 1, 25⟩ defaultFmt)) :=
  ⟨by decide, by decide, by decide,
    shift_of_rendered_date ⟨2023, 1, 15⟩ ⟨2023, 1, 25⟩ 10 defaultFmt
      (by decide) (by decide) (by decide)⟩

/-- C2: for every (ASCII) string `x`, integer `k` and well-formed format
`f`, if `x` does not strictly parse under `f` in its entirety, then
`shift(x, k, f)` returns `x` unchanged and raises nothing to the caller
(the `ValueError` is caught inside `shift_date`; only a warning is
logged). -/
theorem shift_identity_on_unparsable (x : String) (k : Int) (fmt : List FmtTok)
    (hok : fmtOk fmt = true) (hx : ∀ c ∈ x.toList, c.toNat < 128)
    (hparse : strictParse x fmt = none) :
    shift_date x k fmt = .ok x := by
  unfold strictParse at hparse
  unfold shift_date
  rw [hparse]

/-- Witness for C2 at the shape-matched but calendar-invalid `2023-13-40`. -/
theorem shift_identity_on_unparsable_witness :
    fmtOk defaultFmt = true ∧
    (∀ c ∈ ("2023-13-40" : String).toList, c.toNat < 128) ∧
    strictParse "2023-13-40" defaultFmt = none ∧
    shift_date "2023-13-40" 7 defaultFmt = .ok "2023-13-40" :=
  ⟨by decide, by decide, by decide,
    shift_identity_on_unparsable "2023-13-40" 7 defaultFmt
      (by decide) (by decide) (by decide)⟩

/-- C3: the content transformer equals the fold the specification words
describe: scan the content once for candidates, then for each candidate in
scan order (duplicates included) compute its shifted form and globally
replace every occurrence of that exact literal substring in the entire
current state of the content. -/
theorem transform_eq_spec_fold (content : String) (k : Int) (fmt : List FmtTok) :
    transformContent content k fmt = transformSpec content k fmt := by
  unfold transformContent transformSpec
  generalize findAll content.toList = cands
  induction cands generalizing content with
  | nil => rfl
  | cons c cs ih =>
    simp only [List.foldlM, transformSpecGo, shiftStep, Except.map]
    cases shift_date c k fmt with
    | error e => rfl
    | ok s => simpa using ih _

/-- C4: the scanner on the reference string yields exactly the four
candidates, in order: left-to-right, non-overlapping, first shape wins
(`31-12-2023` is taken by the second shape before the two-digit-year one,
and `2023-13-40` is shape-matched although calendar-invalid). -/
theorem scanner_on_reference_string :
    findAll "start 2023-12-31 mid 31/12/99 end 31-12-2023 tail 2023-13-40 done".toList =
      ["2023-12-31", "31/12/99", "31-12-2023", "2023-13-40"] := by decide

/-- C5: for every string `s` that strictly parses under a well-formed
format `f` to the date `d`, `shift(s, 0, f)` equals `render(d, f)`: a
zero-day shift re-renders canonically and never changes the calendar
date. -/
theorem shift_zero_rerenders (s : String) (fmt : List FmtTok) (d : Date)
    (hok : fmtOk fmt = true) (hparse : strictParse s fmt = some d) :
    shift_date s 0 fmt = .ok (String.mk (strftime d fmt)) := by
  unfold strictParse at hparse
  unfold shift_date
  rw [hparse]
  simp [addDaysChecked, iterateO]

/-- Witness for C5 at the non-padded `2023-1-5`, whose zero-shift
normalizes to `2023-01-05`. -/
theorem shift_zero_rerenders_witness :
    fmtOk defaultFmt = true ∧
    strictParse "2023-1-5" defaultFmt = some ⟨2023, 1, 5⟩ ∧
    shift_date "2023-1-5" 0 defaultFmt = .ok "2023-01-05" :=
  ⟨by decide, by decide, by
    have h := shift_zero_rerenders "2023-1-5" defaultFmt ⟨2023, 1, 5⟩
      (by decide) (by decide)
    simpa using h⟩

/-- C7: cascading substitution: shifting `2023-01-15` by 5 renders
`2023-01-20`, the literal text of the later candidate; the sequential
global replacements therefore rewrite the first date twice, and it ends up
shifted by 10 = 2 × 5 days in the output. -/
theorem cascading_substitution_demo :
    findAll "2023-01-15 2023-01-20".toList = ["2023-01-15", "2023-01-20"] ∧
    shift_date "2023-01-15" 5 defaultFmt = .ok "2023-01-20" ∧
    transformContent "2023-01-15 2023-01-20" 5 defaultFmt =
      .ok "2023-01-25 2023-01-25" := by decide

/-- C8: end-to-end scenario with the default format and offset +10. -/
theorem end_to_end_meeting_example :
    transformContent "Meeting on 2023-01-15 and follow-up 2023-01-20." 10 defaultFmt =
      .ok "Meeting on 2023-01-25 and follow-up 2023-01-30." := by decide

/-- C9: the shifter is not total on parseable inputs: `9999-12-31` strictly
parses under the default format, but adding one day overflows; `shift_date`
catches only parse failures, so the error escapes, reaches the per-file
`except Exception` handler, and the whole file is skipped with no output
written. -/
theorem shift_overflow_skips_file :
    strictParse "9999-12-31" defaultFmt = some ⟨9999, 12, 31⟩ ∧
    shift_date "9999-12-31" 1 defaultFmt = .error .overflow ∧
    processFileResult "due 9999-12-31 end" 1 defaultFmt = none := by decide

/-- C10: no boundary anchoring: inside the longer token `12023-12-310` the
scanner still yields the embedded shape `2023-12-31` as a candidate, and
the transformer rewrites it in place, altering the surrounding token. -/
theorem scanner_no_boundary_anchoring :
    findAll "12023-12-310".toList = ["2023-12-31"] ∧
    transformContent "12023-12-310" 1 defaultFmt = .ok "12024-01-010" := by decide

/-- C6 counterexample: in
`"2023-01-15 11/11/2023-01-15"` the scanner finds `2023-01-15` and
`11/11/2023`; the trailing `-01-15` is a maximal region belonging to no
scanned candidate, yet the global replacement of `2023-01-15` also rewrites
the occurrence straddling `11/11/2023` and that region, so `-01-15` does
not appear (unchanged or at all) in the output. -/
theorem frame_property_counterexample :
    ("2023-01-15 11/11/2023-01-15" : String) =
      "2023-01-15" ++ " " ++ "11/11/2023" ++ "-01-15" ∧
    findAll "2023-01-15 11/11/2023-01-15".toList = ["2023-01-15", "11/11/2023"] ∧
    transformContent "2023-01-15 11/11/2023-01-15" 10 defaultFmt =
      .ok "2023-01-25 11/11/2023-01-25" ∧
    ¬ ("-01-15".toList <:+: "2023-01-25 11/11/2023-01-25".toList) := by decide

/-! ## Frame analysis of the transformer (amended C6)

The counterexample above shows the overview sentence "leaves all non-date
text untouched" fails in general.  The amended statement: it holds whenever
the global replacements cannot cascade — each candidate's literal text
occurs only at its scanned span, and no shifted rendering re-introduces a
candidate.  The hypotheses below make that precise over a decomposition of
the content into the scanned candidates and the gaps between them. -/

/-- Characters a scanner match can consist of: digits and the two
separators. -/
def dateChar (c : Char) : Bool := isDigitC c || c = '-' || c = '/'

/-- Total wrapper of `shift_date`: the shifted rendering on success, the
candidate itself when the parse fails (the value the loop actually
substitutes in both cases). -/
def shiftTot (k : Int) (fmt : List FmtTok) (c : String) : String :=
  match shift_date c k fmt with
  | .ok s => s
  | .error _ => c

/-- Current text sitting at a candidate's span once the candidates in `P`
have been processed. -/
def slotVal (k : Int) (fmt : List FmtTok) (P : List String) (c : String) : List Char :=
  if c ∈ P then (shiftTot k fmt c).toList else c.toList

/-- Concatenate (slot, gap) segments. -/
def segsJoin : List (List Char × List Char) → List Char
  | [] => []
  | p :: rest => p.1 ++ (p.2 ++ segsJoin rest)

/-- Every gap except possibly the final one is non-empty (adjacent scanner
matches would let an occurrence straddle two spans). -/
def internalGapsNonempty {α : Type} : List (α × List Char) → Bool
  | p :: q :: rest => !p.2.isEmpty && internalGapsNonempty (q :: rest)
  | _ => true

/-- The content as decomposed by the scan, after processing the candidates
in `P`: each candidate span holds its `slotVal`, each gap is as scanned. -/
def decompGo (k : Int) (fmt : List FmtTok) (P : List String)
    (pairs : List (String × List Char)) : List Char :=
  segsJoin (pairs.map fun p => (slotVal k fmt P p.1, p.2))

theorem replGo_nil (old new : List Char) (fuel : Nat) : replGo old new fuel [] = [] := by
  cases fuel with
  | zero => rfl
  | succ f => cases old <;> simp [replGo, List.isPrefixOf]

theorem replGo_congr (old new : List Char) (hold : old ≠ []) :
    ∀ (f1 f2 : Nat) (s : List Char), s.length ≤ f1 → s.length ≤ f2 →
      replGo old new f1 s = replGo old new f2 s := by
  intro f1
  induction f1 with
  | zero =>
    intro f2 s h1 _
    have hs : s = [] := List.length_eq_zero.mp (Nat.le_zero.mp h1)
    subst hs
    rw [replGo_nil, replGo_nil]
  | succ f ih =>
    intro f2 s h1 h2
    cases f2 with
    | zero =>
      have hs : s = [] := List.length_eq_zero.mp (Nat.le_zero.mp h2)
      subst hs
      rw [replGo_nil, replGo_nil]
    | succ f2 =>
      by_cases hp : old.isPrefixOf s
      · have hpre : old <+: s := List.isPrefixOf_iff_prefix.mp hp
        have hlen : old.length ≤ s.length := hpre.length_le
        have hone : 1 ≤ old.length := by
          cases old with
          | nil => exact absurd rfl hold
          | cons a l => simp
        simp only [replGo, if_pos (And.intro hold hp)]
        congr 1
        apply ih
        · simp only [List.length_drop]; omega
        · simp only [List.length_drop]; omega
      · have hng : ¬ (old ≠ [] ∧ old.isPrefixOf s = true) := fun h => hp h.2
        simp only [replGo, if_neg hng]
        cases s with
        | nil => rfl
        | cons c rest =>
          simp only [List.length_cons] at h1 h2
          show c :: replGo old new f rest = c :: replGo old new f2 rest
          congr 1
          exact ih f2 rest (by omega) (by omega)

theorem replGo_eq_pyReplace (old new : List Char) (hold : old ≠ []) (fuel : Nat)
    (s : List Char) (h : s.length ≤ fuel) : replGo old new fuel s = pyReplace s old new :=
  replGo_congr old new hold fuel s.length s h (Nat.le_refl _)

/-- Replacement of a leading occurrence: `str.replace` substitutes it and continues after it. -/
theorem pyReplace_append_match (old new rest : List Char) (hold : old ≠ []) :
    pyReplace (old ++ rest) old new = new ++ pyReplace rest old new := by
  obtain ⟨o, os, rfl⟩ : ∃ o os, old = o :: os := by
    cases old with
    | nil => exact absurd rfl hold
    | cons o os => exact ⟨o, os, rfl⟩
  show replGo (o :: os) new ((o :: os ++ rest).length) (o :: os ++ rest) = _
  have hp : (o :: os).isPrefixOf (o :: (os ++ rest)) :=
    List.isPrefixOf_iff_prefix.mpr ⟨rest, by simp⟩
  simp only [List.cons_append, List.length_cons]
  rw [replGo, if_pos (And.intro hold hp)]
  congr 1
  have hdrop : ((o :: os) ++ rest).drop (o :: os).length = rest := List.drop_left _ _
  simp only [List.cons_append] at hdrop
  rw [hdrop]
  apply replGo_eq_pyReplace _ _ hold
  simp only [List.length_append]
  omega

/-- Skipping: `str.replace` walks past a region in which no occurrence of the
pattern begins. -/
theorem pyReplace_append_no_match (old new : List Char) (hold : old ≠ []) :
    ∀ (v rest : List Char),
      (∀ a b, v ++ rest = a ++ old ++ b → v.length ≤ a.length) →
      pyReplace (v ++ rest) old new = v ++ pyReplace rest old new := by
  intro v
  induction v with
  | nil => intro rest _; simp
  | cons c v' ih =>
    intro rest H
    have hnp : ¬ old.isPrefixOf (c :: v' ++ rest) := by
      intro hp
      obtain ⟨b, hb⟩ := List.isPrefixOf_iff_prefix.mp hp
      have h0 := H [] b (by simpa using hb.symm)
      simp at h0
    show replGo old new ((c :: v' ++ rest).length) (c :: (v' ++ rest)) = _
    simp only [List.cons_append, List.length_cons]
    have hng : ¬ (old ≠ [] ∧ old.isPrefixOf (c :: (v' ++ rest)) = true) := by
      intro h
      exact hnp (by simpa using h.2)
    rw [replGo, if_neg hng]
    congr 1
    refine (replGo_eq_pyReplace old new hold _ _ (Nat.le_refl _)).trans ?_
    refine ih rest fun a b hab => ?_
    have h1 := H (c :: a) b (by simpa using congrArg (c :: ·) hab)
    simpa using h1

/-- No occurrence of an all-date-character pattern can begin inside a gap
consisting of non-date characters. -/
theorem no_occurrence_in_gap (old g rest : List Char) (hold : old ≠ [])
    (holddc : ∀ ch ∈ old, dateChar ch = true)
    (hg : ∀ ch ∈ g, dateChar ch = false) :
    ∀ a b, g ++ rest = a ++ old ++ b → g.length ≤ a.length := by
  intro a b heq
  by_contra hlt
  push_neg at hlt
  obtain ⟨o, os, rfl⟩ : ∃ o os, old = o :: os := by
    cases old with
    | nil => exact absurd rfl hold
    | cons o os => exact ⟨o, os, rfl⟩
  have hx : (g ++ rest)[a.length]? = some o := by
    rw [heq, List.append_assoc, List.getElem?_append_right (Nat.le_refl a.length)]
    simp
  have hx2 : (g ++ rest)[a.length]? = g[a.length]? := by
    rw [List.getElem?_append]
    simp [hlt]
  have hcg : g[a.length]? = some o := hx2.symm.trans hx
  have hmem : o ∈ g := List.getElem?_mem hcg
  have t1 := holddc o (by simp)
  have t2 := hg o hmem
  rw [t1] at t2
  exact Bool.noConfusion t2

/-- No occurrence of an all-date-character pattern can begin inside a slot
it neither equals nor occurs in, when what follows the slot is empty or
starts with a non-date character. -/
theorem no_occurrence_in_slot (old v rest : List Char) (hold : old ≠ [])
    (holddc : ∀ ch ∈ old, dateChar ch = true)
    (hni : ¬ old <:+: v)
    (hrest : rest = [] ∨ ∃ ch t, rest = ch :: t ∧ dateChar ch = false) :
    ∀ a b, v ++ rest = a ++ old ++ b → v.length ≤ a.length := by
  intro a b heq
  by_contra hlt
  push_neg at hlt
  by_cases hfit : a.length + old.length ≤ v.length
  · apply hni
    obtain ⟨m, hm⟩ : ∃ m, v.length = a.length + (old.length + m) :=
      ⟨v.length - (a.length + old.length), by omega⟩
    have hv : v = a ++ (old ++ b.take m) := by
      have hvt : v = (v ++ rest).take v.length := by simp
      rw [hvt, heq, List.append_assoc, hm, List.take_append, List.take_append]
    exact ⟨a, b.take m, by rw [hv, List.append_assoc]⟩
  · push_neg at hfit
    obtain ⟨o, os, rfl⟩ : ∃ o os, old = o :: os := by
      cases old with
      | nil => exact absurd rfl hold
      | cons o os => exact ⟨o, os, rfl⟩
    have idx2 : (v ++ rest)[v.length]? = ((o :: os) ++ b)[v.length - a.length]? := by
      rw [heq, List.append_assoc, List.getElem?_append_right (by omega)]
    have idx3 : ((o :: os) ++ b)[v.length - a.length]? = (o :: os)[v.length - a.length]? := by
      rw [List.getElem?_append]
      have hb0 : v.length - a.length < (o :: os).length := by
        simp only [List.length_cons] at hfit ⊢
        omega
      rw [if_pos hb0]
    have idx4 : ∃ ch, (o :: os)[v.length - a.length]? = some ch := by
      have hb : v.length - a.length < (o :: os).length := by
        simp only [List.length_cons] at hfit ⊢
        omega
      exact ⟨_, List.getElem?_eq_getElem hb⟩
    obtain ⟨ch, hch⟩ := idx4
    have hchmem : ch ∈ o :: os := List.getElem?_mem hch
    have hchdc : dateChar ch = true := holddc ch hchmem
    have idx1 : (v ++ rest)[v.length]? = rest[0]? := by
      rw [List.getElem?_append_right (Nat.le_refl _)]
      simp
    rcases hrest with hrr | ⟨c0, t, hrr, hc0⟩
    · subst hrr
      rw [idx1] at idx2
      rw [idx3, hch] at idx2
      simp at idx2
    · subst hrr
      rw [idx1] at idx2
      rw [idx3, hch] at idx2
      simp at idx2
      rw [idx2] at hc0
      rw [hchdc] at hc0
      exact Bool.noConfusion hc0

theorem internalGapsNonempty_tail {α : Type} (p : α × List Char)
    (rest : List (α × List Char)) (h : internalGapsNonempty (p :: rest) = true) :
    internalGapsNonempty rest = true := by
  cases rest with
  | nil => rfl
  | cons q r =>
    simp only [internalGapsNonempty, Bool.and_eq_true] at h
    exact h.2

/-- One global replacement over a segmented text whose gaps contain no date
characters: when every slot either equals the pattern or does not contain
it, exactly the slots equal to the pattern are rewritten. -/
theorem pyReplace_segsJoin (old new : List Char) (hold : old ≠ [])
    (holddc : ∀ ch ∈ old, dateChar ch = true) :
    ∀ (segs : List (List Char × List Char)),
      (∀ p ∈ segs, ∀ ch ∈ p.2, dateChar ch = false) →
      internalGapsNonempty segs = true →
      (∀ p ∈ segs, p.1 = old ∨ ¬ old <:+: p.1) →
      pyReplace (segsJoin segs) old new =
        segsJoin (segs.map fun p => (if p.1 = old then new else p.1, p.2)) := by
  intro segs
  induction segs with
  | nil => intro _ _ _; rfl
  | cons p rest ih =>
    intro hgaps hne hslot
    obtain ⟨v, g⟩ := p
    have hgv : ∀ ch ∈ g, dateChar ch = false := fun ch hc => hgaps (v, g) (by simp) ch hc
    have hrest_struct : g ++ segsJoin rest = [] ∨
        ∃ ch t, g ++ segsJoin rest = ch :: t ∧ dateChar ch = false := by
      cases g with
      | nil =>
        cases rest with
        | nil => left; rfl
        | cons q r =>
          exfalso
          simp [internalGapsNonempty] at hne
      | cons gc gt =>
        right
        exact ⟨gc, gt ++ segsJoin rest, by simp, hgv gc (by simp)⟩
    have ihr := ih (fun q hq => hgaps q (by simp [hq])) (internalGapsNonempty_tail _ _ hne)
      (fun q hq => hslot q (by simp [hq]))
    have hgapdist : pyReplace (g ++ segsJoin rest) old new =
        g ++ pyReplace (segsJoin rest) old new :=
      pyReplace_append_no_match old new hold g (segsJoin rest)
        (no_occurrence_in_gap old g (segsJoin rest) hold holddc hgv)
    rcases hslot (v, g) (by simp) with hv | hv
    · have hv' : v = old := hv
      subst hv'
      show pyReplace (v ++ (g ++ segsJoin rest)) v new = _
      rw [pyReplace_append_match _ _ _ hold, hgapdist, ihr]
      simp [segsJoin]
    · have hniv : ¬ old <:+: v := hv
      have hvne : v ≠ old := by
        intro hcon
        exact hniv (by rw [hcon])
      show pyReplace (v ++ (g ++ segsJoin rest)) old new = _
      rw [pyReplace_append_no_match old new hold v (g ++ segsJoin rest)
        (no_occurrence_in_slot old v (g ++ segsJoin rest) hold holddc hniv hrest_struct),
        hgapdist, ihr]
      simp [segsJoin, hvne]

theorem stringToListInj {a b : String} (h : a.toList = b.toList) : a = b := by
  cases a
  cases b
  simp only [String.toList] at h
  exact congrArg String.mk h

theorem internalGapsNonempty_map {α β : Type} (f : α × List Char → β × List Char)
    (hf : ∀ p, (f p).2 = p.2) :
    ∀ l : List (α × List Char),
      internalGapsNonempty (l.map f) = internalGapsNonempty l := by
  intro l
  induction l with
  | nil => rfl
  | cons p rest ih =>
    cases rest with
    | nil => rfl
    | cons q r =>
      simp only [List.map_cons, internalGapsNonempty, hf p]
      simp only [List.map_cons] at ih
      rw [ih]

/-- Processing one candidate `c` rewrites exactly the spans currently equal
to `c` — the gaps and the other spans are untouched. -/
theorem step_replace_decomp (k : Int) (fmt : List FmtTok) (g0 : List Char)
    (pairs : List (String × List Char)) (c : String) (P : List String)
    (hgap0 : ∀ ch ∈ g0, dateChar ch = false)
    (hgaps : ∀ p ∈ pairs, ∀ ch ∈ p.2, dateChar ch = false)
    (hne : internalGapsNonempty pairs = true)
    (hcands : ∀ p ∈ pairs, p.1.toList ≠ [] ∧ ∀ ch ∈ p.1.toList, dateChar ch = true)
    (hc : c ∈ pairs.map Prod.fst)
    (hsub : ∀ p ∈ pairs, ∀ q ∈ pairs, p.1.toList <:+: q.1.toList → p.1 = q.1)
    (hshift : ∀ p ∈ pairs, ∀ q ∈ pairs,
        q.1.toList <:+: (shiftTot k fmt p.1).toList → q.1 = p.1 ∧ shiftTot k fmt p.1 = p.1) :
    pyReplace (g0 ++ decompGo k fmt P pairs) c.toList (shiftTot k fmt c).toList =
      g0 ++ decompGo k fmt (c :: P) pairs := by
  obtain ⟨pc, hpc, hpc1⟩ := List.mem_map.mp hc
  have hcne : c.toList ≠ [] := by rw [← hpc1]; exact (hcands pc hpc).1
  have hcdc : ∀ ch ∈ c.toList, dateChar ch = true := by rw [← hpc1]; exact (hcands pc hpc).2
  have hg0dist : pyReplace (g0 ++ decompGo k fmt P pairs) c.toList (shiftTot k fmt c).toList =
      g0 ++ pyReplace (decompGo k fmt P pairs) c.toList (shiftTot k fmt c).toList :=
    pyReplace_append_no_match _ _ hcne g0 _
      (no_occurrence_in_gap _ g0 _ hcne hcdc hgap0)
  rw [hg0dist]
  congr 1
  have hsegs := pyReplace_segsJoin c.toList (shiftTot k fmt c).toList hcne hcdc
    (pairs.map fun p => (slotVal k fmt P p.1, p.2))
    (by
      intro q hq
      obtain ⟨p, hp, rfl⟩ := List.mem_map.mp hq
      exact hgaps p hp)
    (by rw [internalGapsNonempty_map (fun p => (slotVal k fmt P p.1, p.2)) (fun p => rfl)]
        exact hne)
    (by
      intro q hq
      obtain ⟨p, hp, rfl⟩ := List.mem_map.mp hq
      show slotVal k fmt P p.1 = c.toList ∨ ¬ c.toList <:+: slotVal k fmt P p.1
      by_cases hinf : c.toList <:+: slotVal k fmt P p.1
      · left
        unfold slotVal at hinf ⊢
        by_cases hp1 : p.1 ∈ P
        · rw [if_pos hp1] at hinf ⊢
          obtain ⟨hq1, hq2⟩ := hshift p hp pc hpc (by rw [hpc1]; exact hinf)
          rw [hq2, ← hpc1, hq1]
        · rw [if_neg hp1] at hinf ⊢
          have := hsub pc hpc p hp (by rw [hpc1]; exact hinf)
          rw [← this, hpc1]
      · right; exact hinf)
  rw [show decompGo k fmt P pairs =
    segsJoin (pairs.map fun p => (slotVal k fmt P p.1, p.2)) from rfl, hsegs]
  unfold decompGo
  rw [List.map_map]
  apply congrArg segsJoin
  apply List.map_congr_left
  intro p hp
  show ((if slotVal k fmt P p.1 = c.toList then (shiftTot k fmt c).toList
      else slotVal k fmt P p.1), p.2) = (slotVal k fmt (c :: P) p.1, p.2)
  congr 1
  by_cases hp1 : p.1 ∈ P
  · have hv : slotVal k fmt P p.1 = (shiftTot k fmt p.1).toList := if_pos hp1
    have hv2 : slotVal k fmt (c :: P) p.1 = (shiftTot k fmt p.1).toList :=
      if_pos (by simp [hp1])
    rw [hv, hv2]
    by_cases hif : (shiftTot k fmt p.1).toList = c.toList
    · rw [if_pos hif]
      obtain ⟨hq1, hq2⟩ := hshift p hp pc hpc (by rw [hpc1, ← hif])
      rw [← hpc1, hq1]
    · rw [if_neg hif]
  · have hv : slotVal k fmt P p.1 = p.1.toList := if_neg hp1
    rw [hv]
    by_cases hc1 : p.1 = c
    · have hv2 : slotVal k fmt (c :: P) p.1 = (shiftTot k fmt p.1).toList :=
        if_pos (by simp [hc1])
      rw [hv2, if_pos (by rw [hc1]), hc1]
    · have hv2 : slotVal k fmt (c :: P) p.1 = p.1.toList :=
        if_neg (by simp [hc1, hp1])
      rw [hv2, if_neg (fun hx => hc1 (stringToListInj hx))]

/-- When every shift succeeds, the `Except` fold of the loop computes the
plain fold of the replacements. -/
theorem foldlM_shiftStep_ok (k : Int) (fmt : List FmtTok) :
    ∀ (cands : List String) (acc : String),
      (∀ c ∈ cands, shift_date c k fmt = .ok (shiftTot k fmt c)) →
      cands.foldlM (shiftStep k fmt) acc =
        .ok (cands.foldl (fun a c =>
          String.mk (pyReplace a.toList c.toList (shiftTot k fmt c).toList)) acc) := by
  intro cands
  induction cands with
  | nil => intro acc _; rfl
  | cons c cs ih =>
    intro acc h
    have hc := h c (by simp)
    have hstep : shiftStep k fmt acc c =
        .ok (String.mk (pyReplace acc.toList c.toList (shiftTot k fmt c).toList)) := by
      unfold shiftStep
      rw [hc]
      rfl
    rw [List.foldlM_cons, hstep]
    show cs.foldlM (shiftStep k fmt)
        (String.mk (pyReplace acc.toList c.toList (shiftTot k fmt c).toList)) = _
    rw [ih _ (fun x hx => h x (by simp [hx]))]
    rfl

theorem foldl_replace_decomp (k : Int) (fmt : List FmtTok) (g0 : List Char)
    (pairs : List (String × List Char))
    (hgap0 : ∀ ch ∈ g0, dateChar ch = false)
    (hgaps : ∀ p ∈ pairs, ∀ ch ∈ p.2, dateChar ch = false)
    (hne : internalGapsNonempty pairs = true)
    (hcands : ∀ p ∈ pairs, p.1.toList ≠ [] ∧ ∀ ch ∈ p.1.toList, dateChar ch = true)
    (hsub : ∀ p ∈ pairs, ∀ q ∈ pairs, p.1.toList <:+: q.1.toList → p.1 = q.1)
    (hshift : ∀ p ∈ pairs, ∀ q ∈ pairs,
        q.1.toList <:+: (shiftTot k fmt p.1).toList → q.1 = p.1 ∧ shiftTot k fmt p.1 = p.1) :
    ∀ (cs : List String) (P : List String), (∀ c ∈ cs, c ∈ pairs.map Prod.fst) →
      cs.foldl (fun a c => String.mk (pyReplace a.toList c.toList (shiftTot k fmt c).toList))
        (String.mk (g0 ++ decompGo k fmt P pairs)) =
      String.mk (g0 ++ decompGo k fmt (cs.reverse ++ P) pairs) := by
  intro cs
  induction cs with
  | nil => intro P _; simp
  | cons c cs ih =>
    intro P h
    simp only [List.foldl_cons]
    rw [show (String.mk (g0 ++ decompGo k fmt P pairs)).toList =
      g0 ++ decompGo k fmt P pairs from rfl]
    rw [step_replace_decomp k fmt g0 pairs c P hgap0 hgaps hne hcands
      (h c (by simp)) hsub hshift]
    rw [ih (c :: P) (fun x hx => h x (by simp [hx]))]
    rw [List.reverse_cons, List.append_assoc]
    rfl

/-- C6 amended: the transformer leaves all non-date text untouched
*provided the replacements cannot cascade*: the content decomposes into the
scanned candidates and gaps of non-date characters, no candidate's literal
text occurs inside another candidate, and no shifted rendering contains a
candidate's text (other than an unchanged candidate itself).  Under these
hypotheses the output is exactly the original gaps interleaved with the
shifted candidates, so every maximal non-candidate region appears
unchanged.  (Without them the property fails — see the counterexample.) -/
theorem transform_frame_under_no_cascading (k : Int) (fmt : List FmtTok)
    (content : String) (g0 : List Char) (pairs : List (String × List Char))
    (hcontent : content.toList = g0 ++ decompGo k fmt [] pairs)
    (hscan : findAll content.toList = pairs.map Prod.fst)
    (hgap0 : ∀ ch ∈ g0, dateChar ch = false)
    (hgaps : ∀ p ∈ pairs, ∀ ch ∈ p.2, dateChar ch = false)
    (hne : internalGapsNonempty pairs = true)
    (hcands : ∀ p ∈ pairs, p.1.toList ≠ [] ∧ ∀ ch ∈ p.1.toList, dateChar ch = true)
    (hok : ∀ p ∈ pairs, shift_date p.1 k fmt = .ok (shiftTot k fmt p.1))
    (hsub : ∀ p ∈ pairs, ∀ q ∈ pairs, p.1.toList <:+: q.1.toList → p.1 = q.1)
    (hshift : ∀ p ∈ pairs, ∀ q ∈ pairs,
        q.1.toList <:+: (shiftTot k fmt p.1).toList → q.1 = p.1 ∧ shiftTot k fmt p.1 = p.1) :
    transformContent content k fmt =
      .ok (String.mk (g0 ++ segsJoin (pairs.map fun p =>
        ((shiftTot k fmt p.1).toList, p.2)))) := by
  unfold transformContent
  rw [hscan]
  rw [foldlM_shiftStep_ok k fmt (pairs.map Prod.fst) content
    (by
      intro c hcm
      obtain ⟨p, hp, rfl⟩ := List.mem_map.mp hcm
      exact hok p hp)]
  have hc0 : content = String.mk (g0 ++ decompGo k fmt [] pairs) := by
    apply stringToListInj
    rw [hcontent]
    rfl
  rw [hc0]
  rw [foldl_replace_decomp k fmt g0 pairs hgap0 hgaps hne hcands hsub hshift
    (pairs.map Prod.fst) [] (fun c hcm => hcm)]
  apply congrArg Except.ok
  apply congrArg String.mk
  apply congrArg (g0 ++ ·)
  unfold decompGo
  apply congrArg segsJoin
  apply List.map_congr_left
  intro p hp
  have hmem : p.1 ∈ (pairs.map Prod.fst).reverse ++ [] := by
    simp only [List.append_nil, List.mem_reverse]
    exact List.mem_map.mpr ⟨p, hp, rfl⟩
  show (slotVal k fmt ((pairs.map Prod.fst).reverse ++ []) p.1, p.2) = _
  rw [show slotVal k fmt ((pairs.map Prod.fst).reverse ++ []) p.1 =
    (shiftTot k fmt p.1).toList from if_pos hmem]

/-- Witness for the amended C6 on a cascade-free content: both gaps
(`"on "`, `" and "`, `";"`) appear unchanged around the shifted dates. -/
theorem transform_frame_under_no_cascading_witness :
    findAll "on 2023-01-15 and 2023-01-20;".toList = ["2023-01-15", "2023-01-20"] ∧
    transformContent "on 2023-01-15 and 2023-01-20;" 10 defaultFmt =
      .ok "on 2023-01-25 and 2023-01-30;" := by
  constructor
  · decide
  · have h := transform_frame_under_no_cascading 10 defaultFmt
      "on 2023-01-15 and 2023-01-20;" "on ".toList
      [("2023-01-15", " and ".toList), ("2023-01-20", [';'])]
      (by decide) (by decide) (by decide) (by decide) (by decide) (by decide)
      (by decide) (by decide) (by decide)
    rw [h]
    decide

/-! ## Expressibility of valid dates in the default format

Supporting evidence for the expressibility hypothesis of the C1 theorem:
under the default `%Y-%m-%d` format, *every* valid date with a four-digit
year renders to a string that strictly parses back to the same date. -/

theorem digit_facts : ∀ k, k < 10 →
    isDigitC (digitChar k) = true ∧ digitVal (digitChar k) = k := by decide

theorem digitChar_ge0 : ∀ k, k < 10 → '0' ≤ digitChar k := by decide

theorem digitChar_le9 : ∀ k, k < 10 → digitChar k ≤ '9' := by decide

theorem digitChar_le2 : ∀ k, k < 10 → ((digitChar k ≤ '2') ↔ k ≤ 2) := by decide

theorem digitChar_ge1 : ∀ k, k < 10 → (('1' ≤ digitChar k) ↔ 1 ≤ k) := by decide

theorem digitChar_eq0 : ∀ k, k < 10 → ((digitChar k = '0') ↔ k = 0) := by decide

theorem digitChar_eq1 : ∀ k, k < 10 → ((digitChar k = '1') ↔ k = 1) := by decide

theorem digitChar_eq2 : ∀ k, k < 10 → ((digitChar k = '2') ↔ k = 2) := by decide

theorem digitChar_eq3 : ∀ k, k < 10 → ((digitChar k = '3') ↔ k = 3) := by decide

theorem digitChar_eq01 : ∀ k, k < 10 →
    ((digitChar k = '0' ∨ digitChar k = '1') ↔ k ≤ 1) := by decide

theorem matchY_yearStr (y : Nat) (h1 : 1000 ≤ y) (h2 : y ≤ 9999) (rest : List Char) :
    matchY (yearStr y ++ rest) = some (y, rest) := by
  have hy : yearStr y = [digitChar (y / 1000 % 10), digitChar (y / 100 % 10),
      digitChar (y / 10 % 10), digitChar (y % 10)] := by
    unfold yearStr
    rw [if_pos h1]
  rw [hy]
  have d1 := digit_facts (y / 1000 % 10) (Nat.mod_lt _ (by norm_num))
  have d2 := digit_facts (y / 100 % 10) (Nat.mod_lt _ (by norm_num))
  have d3 := digit_facts (y / 10 % 10) (Nat.mod_lt _ (by norm_num))
  have d4 := digit_facts (y % 10) (Nat.mod_lt _ (by norm_num))
  show matchY (digitChar (y / 1000 % 10) :: digitChar (y / 100 % 10) ::
    digitChar (y / 10 % 10) :: digitChar (y % 10) :: rest) = some (y, rest)
  simp only [matchY, if_pos (And.intro d1.1 (And.intro d2.1 (And.intro d3.1 d4.1)))]
  rw [d1.2, d2.2, d3.2, d4.2]
  have : 1000 * (y / 1000 % 10) + 100 * (y / 100 % 10) + 10 * (y / 10 % 10) + y % 10 = y := by
    omega
  rw [this]

theorem matchm_pad2 (m : Nat) (h1 : 1 ≤ m) (h2 : m ≤ 12) (rest : List Char) :
    matchm (pad2 m ++ rest) = some (m, rest) := by
  have hm1 : m % 10 < 10 := Nat.mod_lt _ (by norm_num)
  have hm10 : m / 10 % 10 = m / 10 := by omega
  show matchm (digitChar (m / 10 % 10) :: digitChar (m % 10) :: rest) = some (m, rest)
  rw [hm10]
  by_cases h10 : 10 ≤ m
  · have hd : m / 10 = 1 := by omega
    rw [hd]
    have hcond : digitChar 1 = '1' ∧ '0' ≤ digitChar (m % 10) ∧ digitChar (m % 10) ≤ '2' :=
      ⟨(digitChar_eq1 1 (by norm_num)).mpr rfl, digitChar_ge0 _ hm1,
        (digitChar_le2 _ hm1).mpr (by omega)⟩
    simp only [matchm, if_pos hcond]
    rw [(digit_facts _ hm1).2]
    have : 10 + m % 10 = m := by omega
    rw [this]
  · push_neg at h10
    have hd : m / 10 = 0 := by omega
    have hmm : m % 10 = m := by omega
    rw [hd, hmm]
    have hnc1 : ¬ (digitChar 0 = '1' ∧ '0' ≤ digitChar m ∧ digitChar m ≤ '2') := by
      intro h
      exact absurd ((digitChar_eq1 0 (by norm_num)).mp h.1) (by norm_num)
    have hcond : digitChar 0 = '0' ∧ '1' ≤ digitChar m ∧ digitChar m ≤ '9' :=
      ⟨(digitChar_eq0 0 (by norm_num)).mpr rfl, (digitChar_ge1 m (by omega)).mpr h1,
        digitChar_le9 m (by omega)⟩
    simp only [matchm, if_neg hnc1, if_pos hcond]
    rw [(digit_facts m (by omega)).2]

theorem matchd_pad2 (d : Nat) (h1 : 1 ≤ d) (h2 : d ≤ 31) (rest : List Char) :
    matchd (pad2 d ++ rest) = some (d, rest) := by
  have hd1 : d % 10 < 10 := Nat.mod_lt _ (by norm_num)
  have hd10 : d / 10 % 10 = d / 10 := by omega
  show matchd (digitChar (d / 10 % 10) :: digitChar (d % 10) :: rest) = some (d, rest)
  rw [hd10]
  by_cases h30 : 30 ≤ d
  · have hq : d / 10 = 3 := by omega
    rw [hq]
    have hcond : digitChar 3 = '3' ∧ (digitChar (d % 10) = '0' ∨ digitChar (d % 10) = '1') :=
      ⟨(digitChar_eq3 3 (by norm_num)).mpr rfl, (digitChar_eq01 _ hd1).mpr (by omega)⟩
    simp only [matchd, if_pos hcond]
    rw [(digit_facts _ hd1).2]
    have : 30 + d % 10 = d := by omega
    rw [this]
  · push_neg at h30
    by_cases h10 : 10 ≤ d
    · have hq : d / 10 = 1 ∨ d / 10 = 2 := by omega
      have hqlt : d / 10 < 10 := by omega
      have hnc1 : ¬ (digitChar (d / 10) = '3' ∧
          (digitChar (d % 10) = '0' ∨ digitChar (d % 10) = '1')) := by
        intro h
        have := (digitChar_eq3 _ hqlt).mp h.1
        omega
      have hcond : (digitChar (d / 10) = '1' ∨ digitChar (d / 10) = '2') ∧
          isDigitC (digitChar (d % 10)) = true := by
        refine ⟨?_, (digit_facts _ hd1).1⟩
        rcases hq with hq | hq
        · exact Or.inl (by rw [hq]; exact (digitChar_eq1 1 (by norm_num)).mpr rfl)
        · exact Or.inr (by rw [hq]; exact (digitChar_eq2 2 (by norm_num)).mpr rfl)
      simp only [matchd, if_neg hnc1, if_pos hcond]
      rw [(digit_facts _ hqlt).2, (digit_facts _ hd1).2]
      have : 10 * (d / 10) + d % 10 = d := by omega
      rw [this]
    · push_neg at h10
      have hq : d / 10 = 0 := by omega
      have hmm : d % 10 = d := by omega
      rw [hq, hmm]
      have hnc1 : ¬ (digitChar 0 = '3' ∧ (digitChar d = '0' ∨ digitChar d = '1')) := by
        intro h
        have := (digitChar_eq3 0 (by norm_num)).mp h.1
        omega
      have hnc2 : ¬ ((digitChar 0 = '1' ∨ digitChar 0 = '2') ∧ isDigitC (digitChar d) = true) := by
        intro h
        rcases h.1 with hx | hx
        · have := (digitChar_eq1 0 (by norm_num)).mp hx
          omega
        · have := (digitChar_eq2 0 (by norm_num)).mp hx
          omega
      have hcond : digitChar 0 = '0' ∧ '1' ≤ digitChar d ∧ digitChar d ≤ '9' :=
        ⟨(digitChar_eq0 0 (by norm_num)).mpr rfl, (digitChar_ge1 d (by omega)).mpr h1,
          digitChar_le9 d (by omega)⟩
      simp only [matchd, if_neg hnc1, if_neg hnc2, if_pos hcond]
      rw [(digit_facts d (by omega)).2]

/-- Every valid date with a four-digit year is expressible in the default
format: rendering with `%Y-%m-%d` and strictly re-parsing returns the same
date. -/
theorem strptime_strftime_default (y m d : Nat)
    (hv : isValidDate ⟨y, m, d⟩ = true) (hy : 1000 ≤ y) :
    strptime (strftime ⟨y, m, d⟩ defaultFmt) defaultFmt = some ⟨y, m, d⟩ := by
  simp only [isValidDate, Bool.and_eq_true, decide_eq_true_eq] at hv
  obtain ⟨⟨⟨⟨⟨_, h9999⟩, hm1⟩, hm12⟩, hd1⟩, hdM⟩ := hv
  have hs : strftime ⟨y, m, d⟩ defaultFmt =
      yearStr y ++ ('-' :: (pad2 m ++ ('-' :: (pad2 d ++ [])))) := by
    simp [strftime, defaultFmt, renderTok]
  rw [hs]
  unfold strptime
  have s1 : runToks defaultFmt ⟨none, none, none⟩
      (yearStr y ++ ('-' :: (pad2 m ++ ('-' :: (pad2 d ++ []))))) =
      some ⟨some y, some m, some d⟩ := by
    show (match matchTok .tY ⟨none, none, none⟩
        (yearStr y ++ ('-' :: (pad2 m ++ ('-' :: (pad2 d ++ []))))) with
      | none => none
      | some pr => runToks [.lit '-', .tm, .lit '-', .td] pr.1 pr.2) = _
    rw [show matchTok .tY ⟨none, none, none⟩
        (yearStr y ++ ('-' :: (pad2 m ++ ('-' :: (pad2 d ++ []))))) =
        some (⟨some y, none, none⟩, '-' :: (pad2 m ++ ('-' :: (pad2 d ++ [])))) by
      show (matchY _).map _ = _
      rw [matchY_yearStr y hy h9999]
      rfl]
    show (match matchTok (.lit '-') ⟨some y, none, none⟩
        ('-' :: (pad2 m ++ ('-' :: (pad2 d ++ [])))) with
      | none => none
      | some pr => runToks [.tm, .lit '-', .td] pr.1 pr.2) = _
    rw [show matchTok (.lit '-') (⟨some y, none, none⟩ : Parts)
        ('-' :: (pad2 m ++ ('-' :: (pad2 d ++ [])))) =
        some (⟨some y, none, none⟩, pad2 m ++ ('-' :: (pad2 d ++ []))) by
      simp [matchTok]]
    show (match matchTok .tm ⟨some y, none, none⟩
        (pad2 m ++ ('-' :: (pad2 d ++ []))) with
      | none => none
      | some pr => runToks [.lit '-', .td] pr.1 pr.2) = _
    rw [show matchTok .tm (⟨some y, none, none⟩ : Parts)
        (pad2 m ++ ('-' :: (pad2 d ++ []))) =
        some (⟨some y, some m, none⟩, '-' :: (pad2 d ++ [])) by
      show (matchm _).map _ = _
      rw [matchm_pad2 m hm1 hm12]
      rfl]
    show (match matchTok (.lit '-') ⟨some y, some m, none⟩ ('-' :: (pad2 d ++ [])) with
      | none => none
      | some pr => runToks [.td] pr.1 pr.2) = _
    rw [show matchTok (.lit '-') (⟨some y, some m, none⟩ : Parts) ('-' :: (pad2 d ++ [])) =
        some (⟨some y, some m, none⟩, pad2 d ++ []) by
      simp [matchTok]]
    show (match matchTok .td ⟨some y, some m, none⟩ (pad2 d ++ []) with
      | none => none
      | some pr => runToks [] pr.1 pr.2) = _
    rw [show matchTok .td (⟨some y, some m, none⟩ : Parts) (pad2 d ++ []) =
        some (⟨some y, some m, some d⟩, []) by
      show (matchd _).map _ = _
      rw [matchd_pad2 d hd1 (by
        have : daysInMonth y m ≤ 31 := by
          unfold daysInMonth
          split
          · split <;> omega
          · split <;> omega
        omega)]
      rfl]
    rfl
  rw [s1]
  show (if 1 ≤ y ∧ d ≤ daysInMonth y m then some (Date.mk y m d) else none) =
    some (Date.mk y m d)
  rw [if_pos (And.intro (by omega) hdM)]
